import Mathlib

/-!
# The enrichment pipeline of `cmd/main/app.go`

A shallow embedding of the consume → enrich → publish loop.

* In the pipeline a Go string is a Lean `String` (Unicode text) and a Go `int` is an `Int`.
  For the round trip through `encoding/json`, where the bytes of a string matter, the
  struct is given a second time with its strings as byte sequences (`EnrichedFIOBytes`).
* A Go `error` is represented by its message (`err.Error()`); `Option GoError`
  is a possibly-nil error, `none` being `nil`.
* A Go function returning `(T, error)` returns a pair `T × Option GoError`.
* Everything outside the program (the JSON decoder applied to raw payloads, the
  HTTP services, the Kafka producer) is an oracle in `Env`.  An oracle sees the
  history of earlier calls, so a run may answer every call differently.
* The effects of the program are recorded in `World`: the URLs requested with
  `http.Get`, the byte payloads passed to `publishEnrichedFIO`, the console
  lines, and the fatal exit of `log.Fatalf`.
* A JSON object is the ordered list of its members (`Wire`); `encoding/json`
  is modelled at that level from the struct tags of `FIO` and `EnrichedFIO`, with the
  coercion of strings to valid UTF-8 that `json.Marshal` applies, the UTF-8 bytes
  `json.Unmarshal` stores, and the 64-bit range of `int`.
-/

namespace FioPipeline

/-- Message of a non-nil Go `error`. -/
abbrev GoError := String

/-- The struct `FIO` (app.go 12-16). -/
structure FIO where
  Name : String := ""
  Surname : String := ""
  Patronymic : String := ""
deriving DecidableEq, Repr

/-- The struct `EnrichedFIO` (app.go 18-25); the embedded `FIO` is the parent structure,
the defaults are the Go zero values. -/
structure EnrichedFIO extends FIO where
  Age : Int := 0
  Gender : String := ""
  Nationality : String := ""
  Error : String := ""
  ErrorMessage : String := ""
deriving DecidableEq, Repr

/-- A JSON value as far as the decoder of the two structs tells values apart.  A string is
its text after unquoting; `num` is a number literal that is an integer in decimal notation,
`numLit` any other number literal (with a fraction or an exponent), kept as written; the
elements of an array and the members of an object are skipped by the decoder and not kept. -/
inductive JVal where
  | null
  | bool (b : Bool)
  | str (s : String)
  | num (n : Int)
  | numLit (lit : String)
  | arr
  | obj
deriving DecidableEq, Repr

/-- A JSON object: its members in order. -/
abbrev Wire := List (String × JVal)

/-- The world outside the program.  Each oracle receives the history of the calls made so
far, so its answers may change from call to call. -/
structure Env where
  /-- The call `json.Unmarshal(msg.Value, &fio)` on a zero `FIO`: the struct it leaves and its error. -/
  jsonUnmarshalFIO : String → FIO × Option GoError
  /-- The call `http.Get(url)`, given the URLs requested earlier: an error or the response body. -/
  httpGet : List String → String → Except GoError String
  /-- The call `json.NewDecoder(resp.Body).Decode(&result)` in `getAge`: `result.Age` and the error. -/
  decodeAge : String → Int × Option GoError
  /-- The same in `getGender`: `result.Gender` and the error. -/
  decodeGender : String → String × Option GoError
  /-- The same in `getNationality`: `result.Nationality` and the error. -/
  decodeNationality : String → String × Option GoError
  /-- Error of `kafka.NewProducer`, given the payloads handed over earlier. -/
  newProducer : List Wire → Option GoError
  /-- Error returned by `p.Produce`. -/
  produce : List Wire → Wire → Option GoError
  /-- The `TopicPartition.Error` of the delivery report. -/
  delivery : List Wire → Wire → Option GoError

/-- The observable effects of a run. -/
structure World where
  /-- URLs passed to `http.Get`, oldest first. -/
  requests : List String := []
  /-- Payloads passed to `publishEnrichedFIO`, oldest first. -/
  handed : List Wire := []
  /-- Lines printed with `fmt.Printf`. -/
  console : List String := []
  /-- Message of the `log.Fatalf` that ended the process, if any. -/
  fatal : Option String := none
deriving DecidableEq, Repr

/-- What `c.ReadMessage(-1)` returned: a message value, or an error together with the
`%v` rendering of the message pointer. -/
inductive ReadResult where
  | message (value : String)
  | failure (err : GoError) (msg : String)
deriving DecidableEq, Repr

/-! ## `encoding/json` on `EnrichedFIO`, from the struct tags -/

/-- A string field tagged `omitempty`. -/
def omitEmptyStr (key : String) (v : String) : Wire :=
  if v = "" then [] else [(key, JVal.str v)]

/-- An int field tagged `omitempty`. -/
def omitEmptyInt (key : String) (v : Int) : Wire :=
  if v = 0 then [] else [(key, JVal.num v)]

/-- The call `json.Marshal` on an `EnrichedFIO` value: the promoted fields of the embedded `FIO` first, then
the rest in declaration order; `name` and `surname` carry no `omitempty`. -/
def jsonMarshal (o : EnrichedFIO) : Wire :=
  [("name", JVal.str o.Name), ("surname", JVal.str o.Surname)]
    ++ omitEmptyStr "patronymic" o.Patronymic
    ++ omitEmptyInt "age" o.Age
    ++ omitEmptyStr "gender" o.Gender
    ++ omitEmptyStr "nationality" o.Nationality
    ++ omitEmptyStr "error" o.Error
    ++ omitEmptyStr "error_message" o.ErrorMessage

/-- The fields of `EnrichedFIO` the decoder can address. -/
inductive Field where
  | name | surname | patronymic | age | gender | nationality | error | errorMessage
deriving DecidableEq, Repr

/-- The JSON key of a field. -/
def Field.key : Field → String
  | .name => "name"
  | .surname => "surname"
  | .patronymic => "patronymic"
  | .age => "age"
  | .gender => "gender"
  | .nationality => "nationality"
  | .error => "error"
  | .errorMessage => "error_message"

/-- All fields in declaration order. -/
def Field.all : List Field :=
  [.name, .surname, .patronymic, .age, .gender, .nationality, .error, .errorMessage]

/-- The field a JSON key addresses: an exact match of the key is preferred, otherwise the first
field whose key is equal under the decoder's case folding `fold`. -/
def findField (fold : String → String) (key : String) : Option Field :=
  match Field.all.find? (fun f => f.key = key) with
  | some f => some f
  | none => Field.all.find? (fun f => fold f.key = fold key)

/-- The Go type of a field. -/
def Field.goType : Field → String
  | .age => "int"
  | _ => "string"

/-! ### Strings as bytes: `unicode/utf8` -/

/-- The rune `utf8.RuneError`, U+FFFD. -/
def runeError : Nat := 0xFFFD

/-- Lowest second byte accepted after the lead byte `b0` (the accept ranges of `unicode/utf8`:
no overlong three- or four-byte form). -/
def acceptLo (b0 : Nat) : Nat :=
  if b0 = 0xE0 then 0xA0 else if b0 = 0xF0 then 0x90 else 0x80

/-- Highest second byte accepted after the lead byte `b0` (no surrogate, nothing above
U+10FFFF). -/
def acceptHi (b0 : Nat) : Nat :=
  if b0 = 0xED then 0x9F else if b0 = 0xF4 then 0x8F else 0xBF

/-- A two-byte sequence with lead byte `b0`: the rune and its width, or `(RuneError, 1)`. -/
def decode2 (b0 : Nat) : List Nat → Nat × Nat
  | b1 :: _ =>
    if 0x80 ≤ b1 ∧ b1 ≤ 0xBF then ((b0 - 0xC0) * 64 + (b1 - 0x80), 2) else (runeError, 1)
  | _ => (runeError, 1)

/-- A three-byte sequence with lead byte `b0`. -/
def decode3 (b0 : Nat) : List Nat → Nat × Nat
  | b1 :: b2 :: _ =>
    if acceptLo b0 ≤ b1 ∧ b1 ≤ acceptHi b0 ∧ 0x80 ≤ b2 ∧ b2 ≤ 0xBF then
      ((b0 - 0xE0) * 4096 + (b1 - 0x80) * 64 + (b2 - 0x80), 3)
    else (runeError, 1)
  | _ => (runeError, 1)

/-- A four-byte sequence with lead byte `b0`. -/
def decode4 (b0 : Nat) : List Nat → Nat × Nat
  | b1 :: b2 :: b3 :: _ =>
    if acceptLo b0 ≤ b1 ∧ b1 ≤ acceptHi b0 ∧ 0x80 ≤ b2 ∧ b2 ≤ 0xBF ∧ 0x80 ≤ b3 ∧ b3 ≤ 0xBF then
      ((b0 - 0xF0) * 262144 + (b1 - 0x80) * 4096 + (b2 - 0x80) * 64 + (b3 - 0x80), 4)
    else (runeError, 1)
  | _ => (runeError, 1)

/-- The function `utf8.DecodeRune`: the first rune of the bytes and its width in bytes; a byte
that starts no valid sequence gives `(RuneError, 1)`. -/
def decodeRune : List Nat → Nat × Nat
  | [] => (runeError, 0)
  | b0 :: rest =>
    if b0 < 0x80 then (b0, 1)
    else if 0xC2 ≤ b0 ∧ b0 ≤ 0xDF then decode2 b0 rest
    else if 0xE0 ≤ b0 ∧ b0 ≤ 0xEF then decode3 b0 rest
    else if 0xF0 ≤ b0 ∧ b0 ≤ 0xF4 then decode4 b0 rest
    else (runeError, 1)

/-- The runes of a Go string as the string encoder of `json.Marshal` reads them: one
`DecodeRune` after the other, each advancing by its width, so that every byte outside a valid
sequence becomes one U+FFFD.  The first argument counts the bytes of the current rune that
are still to be passed over. -/
def runesFrom : Nat → List Nat → List Nat
  | _, [] => []
  | skip + 1, _ :: rest => runesFrom skip rest
  | 0, b0 :: rest =>
    (decodeRune (b0 :: rest)).1 :: runesFrom ((decodeRune (b0 :: rest)).2 - 1) rest

/-- The function `utf8.Valid`, with the same counter: no decoding step gives
`(RuneError, 1)`. -/
def utf8ValidFrom : Nat → List Nat → Bool
  | _, [] => true
  | skip + 1, _ :: rest => utf8ValidFrom skip rest
  | 0, b0 :: rest =>
    if decodeRune (b0 :: rest) = (runeError, 1) then false
    else utf8ValidFrom ((decodeRune (b0 :: rest)).2 - 1) rest

/-- The function `utf8.Valid` on the bytes of a Go string. -/
def utf8Valid (bs : List Nat) : Bool := utf8ValidFrom 0 bs

/-- The function `utf8.AppendRune` for a Unicode scalar value: its UTF-8 bytes. -/
def appendRune (n : Nat) : List Nat :=
  if n < 0x80 then [n]
  else if n < 0x800 then [0xC0 + n / 64, 0x80 + n % 64]
  else if n < 0x10000 then [0xE0 + n / 4096, 0x80 + n / 64 % 64, 0x80 + n % 64]
  else [0xF0 + n / 262144, 0x80 + n / 4096 % 64, 0x80 + n / 64 % 64, 0x80 + n % 64]

/-- The JSON string `json.Marshal` writes for a Go string: its text, coerced to valid UTF-8 by
replacing every invalid byte with U+FFFD. -/
def coerceToText (bs : List Nat) : String :=
  String.mk ((runesFrom 0 bs).map Char.ofNat)

/-- The Go string `json.Unmarshal` stores for a JSON string: the UTF-8 bytes of its text. -/
def stringBytes (s : String) : List Nat :=
  s.data.flatMap (fun c => appendRune c.toNat)

/-- What a Go string is after `json.Marshal` and `json.Unmarshal`. -/
def coerce (bs : List Nat) : List Nat := stringBytes (coerceToText bs)

/-! ### The struct with its strings as bytes -/

/-- The struct `EnrichedFIO` (app.go 12-25) as Go holds it: every string field is a
sequence of bytes (numbers below 256), the fields of the embedded `FIO` come first. -/
structure EnrichedFIOBytes where
  Name : List Nat := []
  Surname : List Nat := []
  Patronymic : List Nat := []
  Age : Int := 0
  Gender : List Nat := []
  Nationality : List Nat := []
  Error : List Nat := []
  ErrorMessage : List Nat := []
deriving DecidableEq, Repr

/-- Every string field holds valid UTF-8. -/
def EnrichedFIOBytes.validUTF8 (o : EnrichedFIOBytes) : Bool :=
  utf8Valid o.Name && utf8Valid o.Surname && utf8Valid o.Patronymic && utf8Valid o.Gender
    && utf8Valid o.Nationality && utf8Valid o.Error && utf8Valid o.ErrorMessage

/-- The value with every string field coerced to valid UTF-8. -/
def EnrichedFIOBytes.coerced (o : EnrichedFIOBytes) : EnrichedFIOBytes :=
  { Name := coerce o.Name, Surname := coerce o.Surname, Patronymic := coerce o.Patronymic,
    Age := o.Age, Gender := coerce o.Gender, Nationality := coerce o.Nationality,
    Error := coerce o.Error, ErrorMessage := coerce o.ErrorMessage }

/-- The value as the pipeline sees it: every string field as the text `json.Marshal` writes. -/
def EnrichedFIOBytes.text (o : EnrichedFIOBytes) : EnrichedFIO :=
  ⟨⟨coerceToText o.Name, coerceToText o.Surname, coerceToText o.Patronymic⟩, o.Age,
    coerceToText o.Gender, coerceToText o.Nationality, coerceToText o.Error,
    coerceToText o.ErrorMessage⟩

/-- A string field tagged `omitempty`, decided on the Go value: omitted when it has no byte. -/
def omitEmptyBytes (key : String) (bs : List Nat) : Wire :=
  if bs = [] then [] else [(key, JVal.str (coerceToText bs))]

/-- The call `json.Marshal` on an `EnrichedFIO` value held as bytes: the members of
`jsonMarshal`, every string written as its text coerced to valid UTF-8. -/
def jsonMarshalBytes (o : EnrichedFIOBytes) : Wire :=
  [("name", JVal.str (coerceToText o.Name)), ("surname", JVal.str (coerceToText o.Surname))]
    ++ omitEmptyBytes "patronymic" o.Patronymic
    ++ omitEmptyInt "age" o.Age
    ++ omitEmptyBytes "gender" o.Gender
    ++ omitEmptyBytes "nationality" o.Nationality
    ++ omitEmptyBytes "error" o.Error
    ++ omitEmptyBytes "error_message" o.ErrorMessage

/-- The range of a Go `int` (64 bits). -/
def inInt64 (n : Int) : Prop := -9223372036854775808 ≤ n ∧ n ≤ 9223372036854775807

instance (n : Int) : Decidable (inInt64 n) := by
  unfold inInt64; infer_instance

/-- The error `json.UnmarshalTypeError`: the description of the JSON value, the Go type it
could not be stored in, and the field. -/
structure UnmarshalTypeError where
  value : String
  goType : String
  field : Field
deriving DecidableEq, Repr

/-- Store one JSON value into a field.  `null` leaves the field alone.  A string goes into a
string field as its UTF-8 bytes, an integer literal within the range of `int` into `Age`.
Any other value is skipped and reported: a boolean, an array, an object, a string for `Age`,
a number for a string field, and for `Age` a number literal that is no integer or is out of
range, reported with the literal. -/
def setField (o : EnrichedFIOBytes) (f : Field) (v : JVal) :
    EnrichedFIOBytes × Option UnmarshalTypeError :=
  match v with
  | .null => (o, none)
  | .bool _ => (o, some ⟨"bool", f.goType, f⟩)
  | .arr => (o, some ⟨"array", f.goType, f⟩)
  | .obj => (o, some ⟨"object", f.goType, f⟩)
  | .str s =>
    match f with
    | .name => ({ o with Name := stringBytes s }, none)
    | .surname => ({ o with Surname := stringBytes s }, none)
    | .patronymic => ({ o with Patronymic := stringBytes s }, none)
    | .age => (o, some ⟨"string", "int", .age⟩)
    | .gender => ({ o with Gender := stringBytes s }, none)
    | .nationality => ({ o with Nationality := stringBytes s }, none)
    | .error => ({ o with Error := stringBytes s }, none)
    | .errorMessage => ({ o with ErrorMessage := stringBytes s }, none)
  | .num n =>
    match f with
    | .age =>
      if inInt64 n then ({ o with Age := n }, none)
      else (o, some ⟨"number " ++ toString n, "int", .age⟩)
    | _ => (o, some ⟨"number", "string", f⟩)
  | .numLit lit =>
    match f with
    | .age => (o, some ⟨"number " ++ lit, "int", .age⟩)
    | _ => (o, some ⟨"number", "string", f⟩)

/-- One member of the object being decoded: unknown keys are ignored, the earliest error is
kept and decoding goes on. -/
def decodeMember (fold : String → String) (st : EnrichedFIOBytes × Option UnmarshalTypeError)
    (m : String × JVal) : EnrichedFIOBytes × Option UnmarshalTypeError :=
  match findField fold m.1 with
  | none => st
  | some f =>
    let r := setField st.1 f m.2
    (r.1, match st.2 with
          | some e => some e
          | none => r.2)

/-- The call `json.Unmarshal(bytes, &v)` for a zero `v` of type `EnrichedFIO` and a payload
that is the JSON object `w`: the struct it leaves, as bytes, and its error. -/
def jsonUnmarshal (fold : String → String) (w : Wire) :
    EnrichedFIOBytes × Option UnmarshalTypeError :=
  w.foldl (decodeMember fold) ({}, none)

/-! ## The lookups (app.go 134-186) -/

/-- The call `http.Get(url)`: the request is recorded and the oracle answers. -/
def httpGet (env : Env) (url : String) (w : World) : Except GoError String × World :=
  (env.httpGet w.requests url, { w with requests := w.requests ++ [url] })

/-- The function `getAge` (app.go 134-150). -/
def getAge (env : Env) (name : String) (w : World) : (Int × Option GoError) × World :=
  match httpGet env ("https://api.agify.io/?name=" ++ name) w with
  | (.error err, w1) => ((0, some err), w1)
  | (.ok body, w1) =>
    match env.decodeAge body with
    | (_, some err) => ((0, some err), w1)
    | (age, none) => ((age, none), w1)

/-- The function `getGender` (app.go 152-168). -/
def getGender (env : Env) (name : String) (w : World) : (String × Option GoError) × World :=
  match httpGet env ("https://api.genderize.io/?name=" ++ name) w with
  | (.error err, w1) => (("_", some err), w1)
  | (.ok body, w1) =>
    match env.decodeGender body with
    | (_, some err) => (("_", some err), w1)
    | (gender, none) => ((gender, none), w1)

/-- The function `getNationality` (app.go 170-186). -/
def getNationality (env : Env) (name : String) (w : World) :
    (String × Option GoError) × World :=
  match httpGet env ("https://api.nationalize.io/?name=" ++ name) w with
  | (.error err, w1) => (("_", some err), w1)
  | (.ok body, w1) =>
    match env.decodeNationality body with
    | (_, some err) => (("_", some err), w1)
    | (nationality, none) => ((nationality, none), w1)

/-! ## The orchestrator (app.go 108-132) -/

/-- The function `enrichFIO`: the struct it returns, its error, and the world afterwards. -/
def enrichFIO (env : Env) (fio : FIO) (w : World) : ( EnrichedFIO × Option GoError) × World :=
  let enrichedFIO : EnrichedFIO := { toFIO := fio }
  match getAge env fio.Name w with
  | ((_, some err), w1) => (( enrichedFIO, some ("Failed to get age: " ++ err)), w1)
  | ((age, none), w1) =>
    let enrichedFIO := { enrichedFIO with Age := age }
    match getGender env fio.Name w1 with
    | ((_, some err), w2) => (( enrichedFIO, some ("Failed to get gender: " ++ err)), w2)
    | ((gender, none), w2) =>
      let enrichedFIO := { enrichedFIO with Gender := gender }
      match getNationality env fio.Name w2 with
      | ((_, some err), w3) =>
        (( enrichedFIO, some ("Failed to get nationality: " ++ err)), w3)
      | ((nationality, none), w3) =>
        let enrichedFIO := { enrichedFIO with Nationality := nationality }
        (( enrichedFIO, none), w3)

/-! ## The publisher (app.go 79-106) -/

/-- The call `log.Fatalf`: the process ends with this message. -/
def logFatalf (msg : String) (w : World) : World :=
  { w with fatal := some msg }

/-- The function `publishEnrichedFIO`: the payload is recorded as handed over; a producer that
cannot be created, a refused send or a failed delivery report ends the process. -/
def publishEnrichedFIO (env : Env) (enrichedBytes : Wire) (w : World) : World :=
  let w1 := { w with handed := w.handed ++ [enrichedBytes] }
  match env.newProducer w.handed with
  | some err => logFatalf ("Failed to create producer: " ++ err ++ "\n") w1
  | none =>
    match env.produce w.handed enrichedBytes with
    | some err => logFatalf ("Failed to produce message: " ++ err ++ "\n") w1
    | none =>
      match env.delivery w.handed enrichedBytes with
      | some err => logFatalf ("Delivery failed: " ++ err ++ "\n") w1
      | none => w1

/-! ## The consume loop (app.go 44-75) -/

/-- The body of the `err == nil` branch (app.go 47-71) for a message value. -/
def handleMessage (env : Env) (value : String) (w : World) : World :=
  match env.jsonUnmarshalFIO value with
  | (fio, some _) =>
    let enrichedFIO : EnrichedFIO :=
      { toFIO := fio, Error := "invalid_message", ErrorMessage := "Invalid message format" }
    publishEnrichedFIO env (jsonMarshal enrichedFIO) w
  | (fio, none) =>
    match enrichFIO env fio w with
    | ((_, some err), w1) =>
      let enrichedFIO : EnrichedFIO :=
        { toFIO := fio, Error := "enrichment_failed", ErrorMessage := err }
      publishEnrichedFIO env (jsonMarshal enrichedFIO) w1
    | (( enrichedFIO, none), w1) =>
      publishEnrichedFIO env (jsonMarshal enrichedFIO) w1

/-- One iteration of the `for` loop (app.go 45-74). -/
def iteration (env : Env) (r : ReadResult) (w : World) : World :=
  match r with
  | .message value => handleMessage env value w
  | .failure err msg =>
    { w with console := w.console ++ ["Consumer error: " ++ err ++ " (" ++ msg ++ ")\n"] }

/-- The `for` loop over the results of the successive `ReadMessage` calls; nothing runs after
a fatal exit. -/
def consumeLoop (env : Env) : List ReadResult → World → World
  | [], w => w
  | r :: rs, w =>
    match w.fatal with
    | some _ => w
    | none => consumeLoop env rs (iteration env r w)

/-! ## Vocabulary of the properties -/

/-- The three derived attributes, in the order `enrichFIO` asks for them. -/
inductive Attr where
  | age | gender | nationality
deriving DecidableEq, Repr

/-- The word for an attribute in the error text of `enrichFIO`. -/
def Attr.label : Attr → String
  | .age => "age"
  | .gender => "gender"
  | .nationality => "nationality"

/-- The URL a lookup of the attribute requests for a name. -/
def lookupURL : Attr → String → String
  | .age, name => "https://api.agify.io/?name=" ++ name
  | .gender, name => "https://api.genderize.io/?name=" ++ name
  | .nationality, name => "https://api.nationalize.io/?name=" ++ name

/-- The three lookups run one after the other from world `w`, whatever their results: the
first one that fails with its error, or the three values when none fails. -/
def lookupResults (env : Env) (name : String) (w : World) :
    Except (Attr × GoError) (Int × String × String) :=
  match getAge env name w with
  | ((_, some e), _) => .error (.age, e)
  | ((a, none), w1) =>
    match getGender env name w1 with
    | ((_, some e), _) => .error (.gender, e)
    | ((g, none), w2) =>
      match getNationality env name w2 with
      | ((_, some e), _) => .error (.nationality, e)
      | ((n, none), _) => .ok (a, g, n)

/-- The prefix of age, gender, nationality that ends at the given attribute; the whole list
when there is none. -/
def attempted : Option Attr → List Attr
  | some .age => [.age]
  | some .gender => [.age, .gender]
  | some .nationality => [.age, .gender, .nationality]
  | none => [.age, .gender, .nationality]

/-- The attribute of the first failure, if any. -/
def failedAttr : Except (Attr × GoError) (Int × String × String) → Option Attr
  | .error (a, _) => some a
  | .ok _ => none

/-- The `EnrichedFIO` value that the loop body (app.go 47-70) marshals for a message value,
when the message is handled in world `w`. -/
def outcome (env : Env) (value : String) (w : World) : EnrichedFIO :=
  match env.jsonUnmarshalFIO value with
  | (fio, some _) =>
    { toFIO := fio, Error := "invalid_message", ErrorMessage := "Invalid message format" }
  | (fio, none) =>
    match enrichFIO env fio w with
    | ((_, some err), _) => { toFIO := fio, Error := "enrichment_failed", ErrorMessage := err }
    | (( enrichedFIO, none), _) => enrichedFIO

/-- The world in which the loop body calls `publishEnrichedFIO`. -/
def beforePublish (env : Env) (value : String) (w : World) : World :=
  match env.jsonUnmarshalFIO value with
  | (_, some _) => w
  | (fio, none) => ( enrichFIO env fio w).2

/-- A record has a member with this key. -/
def hasKey (r : Wire) (k : String) : Prop := k ∈ r.map Prod.fst

instance (r : Wire) (k : String) : Decidable (hasKey r k) := by
  unfold hasKey; infer_instance

/-- The enriched state of a published record: the three attributes present, no error field. -/
def isEnriched (r : Wire) : Prop :=
  hasKey r "age" ∧ hasKey r "gender" ∧ hasKey r "nationality"
    ∧ ¬ hasKey r "error" ∧ ¬ hasKey r "error_message"

/-- The failed state of a published record: both error fields present, no attribute. -/
def isFailed (r : Wire) : Prop :=
  hasKey r "error" ∧ hasKey r "error_message"
    ∧ ¬ hasKey r "age" ∧ ¬ hasKey r "gender" ∧ ¬ hasKey r "nationality"

/-- No call of the producer fails. -/
def NoDeliveryFailure (env : Env) : Prop :=
  ∀ (h : List Wire) (b : Wire),
    env.newProducer h = none ∧ env.produce h b = none ∧ env.delivery h b = none

/-- The records the loop is expected to hand over for a sequence of read results: nothing for
a failed read, the marshalled outcome of the message for a successful one, each message being
handled in the world its predecessors left. -/
def expectedRecords (env : Env) : List ReadResult → World → List Wire
  | [], _ => []
  | .failure err msg :: rs, w => expectedRecords env rs (iteration env (.failure err msg) w)
  | .message value :: rs, w =>
    jsonMarshal (outcome env value w)
      :: expectedRecords env rs (iteration env (.message value) w)

/-- The successfully read message values of a sequence of read results. -/
def messagesOf : List ReadResult → List String
  | [] => []
  | .failure _ _ :: rs => messagesOf rs
  | .message value :: rs => value :: messagesOf rs

/-! ## Test doubles -/

/-- Payload of the first example: name Anna, surname Ivanova. -/
def annaPayload : String := "\x7b\"name\":\"Anna\",\"surname\":\"Ivanova\"\x7d"

/-- Payload of the third example: name Bob, surname Lee. -/
def bobPayload : String := "\x7b\"name\":\"Bob\",\"surname\":\"Lee\"\x7d"

/-- Payload of a record whose name the age service does not know. -/
def zedPayload : String := "\x7b\"name\":\"Zed\",\"surname\":\"Roe\"\x7d"

/-- The decode error of the payload `not-json`. -/
def notJsonError : GoError := "invalid character 'o' in literal null (expecting 'u')"

/-- The transport error of the gender service in the third example. -/
def refused : GoError :=
  "Get \"https://api.genderize.io/?name=Bob\": dial tcp: connect: connection refused"

/-- A test double.  The three example payloads decode; anything else is rejected as `not-json`
is.  The services answer Anna with 30, female, RU; the gender service is unreachable for Bob;
the age service answers Zed with a null age, which decodes without error to 0.  The
producer never fails. -/
def demoEnv : Env where
  jsonUnmarshalFIO := fun v =>
    if v = annaPayload then ({ Name := "Anna", Surname := "Ivanova" }, none)
    else if v = bobPayload then ({ Name := "Bob", Surname := "Lee" }, none)
    else if v = zedPayload then ({ Name := "Zed", Surname := "Roe" }, none)
    else ({}, some notJsonError)
  httpGet := fun _ url =>
    if url = "https://api.genderize.io/?name=Bob" then .error refused
    else if url = "https://api.agify.io/?name=Zed" then .ok "\x7b\"age\":null\x7d"
    else if url = "https://api.agify.io/?name=Anna" then .ok "\x7b\"age\":30\x7d"
    else if url = "https://api.agify.io/?name=Bob" then .ok "\x7b\"age\":30\x7d"
    else if url = "https://api.genderize.io/?name=Anna" then .ok "\x7b\"gender\":\"female\"\x7d"
    else if url = "https://api.genderize.io/?name=Zed" then .ok "\x7b\"gender\":\"male\"\x7d"
    else if url = "https://api.nationalize.io/?name=Anna" then .ok "\x7b\"nationality\":\"RU\"\x7d"
    else if url = "https://api.nationalize.io/?name=Zed" then .ok "\x7b\"nationality\":\"US\"\x7d"
    else .error "no such host"
  decodeAge := fun body =>
    if body = "\x7b\"age\":30\x7d" then (30, none)
    else if body = "\x7b\"age\":null\x7d" then (0, none)
    else (0, some "unexpected end of JSON input")
  decodeGender := fun body =>
    if body = "\x7b\"gender\":\"female\"\x7d" then ("female", none)
    else if body = "\x7b\"gender\":\"male\"\x7d" then ("male", none)
    else ("", some "unexpected end of JSON input")
  decodeNationality := fun body =>
    if body = "\x7b\"nationality\":\"RU\"\x7d" then ("RU", none)
    else if body = "\x7b\"nationality\":\"US\"\x7d" then ("US", none)
    else ("", some "unexpected end of JSON input")
  newProducer := fun _ => none
  produce := fun _ _ => none
  delivery := fun _ _ => none

/-! ## Facts about the JSON model -/

theorem findField_key (fold : String → String) (f : Field) :
    findField fold f.key = some f := by
  cases f <;> rfl

/-- A Unicode scalar value: no surrogate, at most U+10FFFF. -/
theorem toNat_ofNat_scalar (n : Nat) (h : n < 0xD800 ∨ (0xDFFF < n ∧ n < 0x110000)) :
    (Char.ofNat n).toNat = n := by
  have hv : n.isValidChar := h
  simp [Char.ofNat, hv, Char.ofNatAux, Char.toNat, UInt32.toNat]

/-- What a decoding step other than `(RuneError, 1)` says about the bytes `b0 :: rest`: the
rune is a scalar value, and its UTF-8 bytes are the bytes the step consumed. -/
theorem decode2_bytes (b0 : Nat) (rest : List Nat) (hb : 0xC2 ≤ b0 ∧ b0 ≤ 0xDF)
    (h : decode2 b0 rest ≠ (runeError, 1)) :
    ((decode2 b0 rest).1 < 0xD800
        ∨ (0xDFFF < (decode2 b0 rest).1 ∧ (decode2 b0 rest).1 < 0x110000))
    ∧ (decode2 b0 rest).2 - 1 ≤ rest.length
    ∧ appendRune (decode2 b0 rest).1 = b0 :: rest.take ((decode2 b0 rest).2 - 1) := by
  unfold decode2 at h ⊢
  split at h
  · next b1 r1 =>
    split_ifs at h ⊢ with hc
    · refine ⟨Or.inl (by simp only; omega), by simp, ?_⟩
      have h1 : ¬ ((b0 - 192) * 64 + (b1 - 128) < 128) := by omega
      have h2 : (b0 - 192) * 64 + (b1 - 128) < 2048 := by omega
      simp only [appendRune, h1, h2, if_true, if_false, List.take_succ_cons, List.take_zero,
        Nat.add_one_sub_one, List.cons.injEq, and_true]
      omega
    · exact absurd rfl h
  · exact absurd rfl h

theorem decode3_bytes (b0 : Nat) (rest : List Nat) (hb : 0xE0 ≤ b0 ∧ b0 ≤ 0xEF)
    (h : decode3 b0 rest ≠ (runeError, 1)) :
    ((decode3 b0 rest).1 < 0xD800
        ∨ (0xDFFF < (decode3 b0 rest).1 ∧ (decode3 b0 rest).1 < 0x110000))
    ∧ (decode3 b0 rest).2 - 1 ≤ rest.length
    ∧ appendRune (decode3 b0 rest).1 = b0 :: rest.take ((decode3 b0 rest).2 - 1) := by
  unfold decode3 at h ⊢
  split at h
  · next b1 b2 r2 =>
    split_ifs at h ⊢ with hc
    · have hlo : b0 = 0xE0 → 0xA0 ≤ b1 := by
        intro e; have := hc.1; simp [acceptLo, e] at this; exact this
      have hhi : b0 = 0xED → b1 ≤ 0x9F := by
        intro e; have := hc.2.1; simp [acceptHi, e] at this; exact this
      have hl : 0x80 ≤ b1 := by
        have := hc.1; unfold acceptLo at this; split_ifs at this <;> omega
      have hh : b1 ≤ 0xBF := by
        have := hc.2.1; unfold acceptHi at this; split_ifs at this <;> omega
      refine ⟨by simp only; omega, by simp, ?_⟩
      have h1 : ¬ ((b0 - 224) * 4096 + (b1 - 128) * 64 + (b2 - 128) < 128) := by omega
      have h2 : ¬ ((b0 - 224) * 4096 + (b1 - 128) * 64 + (b2 - 128) < 2048) := by omega
      have h3 : (b0 - 224) * 4096 + (b1 - 128) * 64 + (b2 - 128) < 65536 := by omega
      simp only [appendRune, h1, h2, h3, if_true, if_false, List.take_succ_cons, List.take_zero,
        Nat.add_one_sub_one, List.cons.injEq, and_true]
      omega
    · exact absurd rfl h
  · exact absurd rfl h

theorem decode4_bytes (b0 : Nat) (rest : List Nat) (hb : 0xF0 ≤ b0 ∧ b0 ≤ 0xF4)
    (h : decode4 b0 rest ≠ (runeError, 1)) :
    ((decode4 b0 rest).1 < 0xD800
        ∨ (0xDFFF < (decode4 b0 rest).1 ∧ (decode4 b0 rest).1 < 0x110000))
    ∧ (decode4 b0 rest).2 - 1 ≤ rest.length
    ∧ appendRune (decode4 b0 rest).1 = b0 :: rest.take ((decode4 b0 rest).2 - 1) := by
  unfold decode4 at h ⊢
  split at h
  · next b1 b2 b3 r3 =>
    split_ifs at h ⊢ with hc
    · have hlo : b0 = 0xF0 → 0x90 ≤ b1 := by
        intro e; have := hc.1; simp [acceptLo, e] at this; exact this
      have hhi : b0 = 0xF4 → b1 ≤ 0x8F := by
        intro e; have := hc.2.1; simp [acceptHi, e] at this; exact this
      have hl : 0x80 ≤ b1 := by
        have := hc.1; unfold acceptLo at this; split_ifs at this <;> omega
      have hh : b1 ≤ 0xBF := by
        have := hc.2.1; unfold acceptHi at this; split_ifs at this <;> omega
      refine ⟨by simp only; omega, by simp, ?_⟩
      have h1 : ¬ ((b0 - 240) * 262144 + (b1 - 128) * 4096 + (b2 - 128) * 64 + (b3 - 128)
          < 128) := by omega
      have h2 : ¬ ((b0 - 240) * 262144 + (b1 - 128) * 4096 + (b2 - 128) * 64 + (b3 - 128)
          < 2048) := by omega
      have h3 : ¬ ((b0 - 240) * 262144 + (b1 - 128) * 4096 + (b2 - 128) * 64 + (b3 - 128)
          < 65536) := by omega
      simp only [appendRune, h1, h2, h3, if_true, if_false, List.take_succ_cons, List.take_zero,
        Nat.add_one_sub_one, List.cons.injEq, and_true]
      omega
    · exact absurd rfl h
  · exact absurd rfl h

theorem decodeRune_bytes (b0 : Nat) (rest : List Nat)
    (h : decodeRune (b0 :: rest) ≠ (runeError, 1)) :
    ((decodeRune (b0 :: rest)).1 < 0xD800
        ∨ (0xDFFF < (decodeRune (b0 :: rest)).1 ∧ (decodeRune (b0 :: rest)).1 < 0x110000))
    ∧ (decodeRune (b0 :: rest)).2 - 1 ≤ rest.length
    ∧ appendRune (decodeRune (b0 :: rest)).1
        = b0 :: rest.take ((decodeRune (b0 :: rest)).2 - 1) := by
  simp only [decodeRune] at h ⊢
  split_ifs at h ⊢ with h1 h2 h3 h4
  · refine ⟨Or.inl (by simp only; omega), by simp, ?_⟩
    simp [appendRune, h1]
  · exact decode2_bytes b0 rest h2 h
  · exact decode3_bytes b0 rest h3 h
  · exact decode4_bytes b0 rest h4 h
  · exact absurd rfl h

theorem runesFrom_skip (k : Nat) (bs : List Nat) (h : k ≤ bs.length) :
    runesFrom k bs = runesFrom 0 (bs.drop k) := by
  induction k generalizing bs with
  | zero => rfl
  | succ k ih =>
    cases bs with
    | nil => simp at h
    | cons b rest =>
      simp only [runesFrom, List.drop_succ_cons]
      exact ih rest (by simpa using h)

theorem utf8ValidFrom_skip (k : Nat) (bs : List Nat) (h : k ≤ bs.length) :
    utf8ValidFrom k bs = utf8ValidFrom 0 (bs.drop k) := by
  induction k generalizing bs with
  | zero => rfl
  | succ k ih =>
    cases bs with
    | nil => simp at h
    | cons b rest =>
      simp only [utf8ValidFrom, List.drop_succ_cons]
      exact ih rest (by simpa using h)

/-- The runes of valid UTF-8 are scalar values whose UTF-8 bytes are the bytes read. -/
theorem valid_runes (n : Nat) (bs : List Nat) (hn : bs.length ≤ n)
    (hv : utf8ValidFrom 0 bs = true) :
    (runesFrom 0 bs).flatMap appendRune = bs
    ∧ ∀ r ∈ runesFrom 0 bs, r < 0xD800 ∨ (0xDFFF < r ∧ r < 0x110000) := by
  induction n generalizing bs with
  | zero =>
    have : bs = [] := List.length_eq_zero.mp (by omega)
    subst this
    exact ⟨rfl, by simp [runesFrom]⟩
  | succ n ih =>
    cases bs with
    | nil => exact ⟨rfl, by simp [runesFrom]⟩
    | cons b0 rest =>
      simp only [utf8ValidFrom] at hv
      split_ifs at hv with hne
      obtain ⟨hs, h2, h3⟩ := decodeRune_bytes b0 rest hne
      rw [utf8ValidFrom_skip _ _ h2] at hv
      have hlen : (rest.drop ((decodeRune (b0 :: rest)).2 - 1)).length ≤ n := by
        simp only [List.length_drop]
        simp only [List.length_cons] at hn
        omega
      obtain ⟨ih1, ih2⟩ := ih _ hlen hv
      simp only [runesFrom]
      rw [runesFrom_skip _ _ h2]
      constructor
      · simp only [List.flatMap_cons]
        rw [ih1, h3, List.cons_append, List.take_append_drop]
      · intro r hr
        rcases List.mem_cons.mp hr with rfl | hr
        · exact hs
        · exact ih2 r hr

theorem stringBytes_of_runes (l : List Nat)
    (h : ∀ r ∈ l, r < 0xD800 ∨ (0xDFFF < r ∧ r < 0x110000)) :
    (l.map Char.ofNat).flatMap (fun c => appendRune c.toNat) = l.flatMap appendRune := by
  induction l with
  | nil => rfl
  | cons r rs ih =>
    simp only [List.map_cons, List.flatMap_cons]
    rw [toNat_ofNat_scalar r (h r (List.mem_cons_self r rs))]
    congr 1
    exact ih (fun x hx => h x (List.mem_cons_of_mem r hx))

/-- Valid UTF-8 is left as it is by `json.Marshal` followed by `json.Unmarshal`. -/
theorem coerce_valid (bs : List Nat) (hv : utf8Valid bs = true) : coerce bs = bs := by
  obtain ⟨h1, h2⟩ := valid_runes bs.length bs (le_refl _) hv
  unfold coerce stringBytes coerceToText
  rw [stringBytes_of_runes _ h2]
  exact h1

theorem coerceToText_eq_empty (bs : List Nat) : coerceToText bs = "" ↔ bs = [] := by
  constructor
  · intro h
    cases bs with
    | nil => rfl
    | cons b rest =>
      have hd := congrArg String.data h
      simp [coerceToText, runesFrom] at hd
  · rintro rfl
    rfl

theorem omitEmptyBytes_eq (key : String) (bs : List Nat) :
    omitEmptyBytes key bs = omitEmptyStr key (coerceToText bs) := by
  unfold omitEmptyBytes omitEmptyStr
  by_cases h : bs = []
  · subst h
    simp [show coerceToText [] = "" from rfl]
  · have h2 : coerceToText bs ≠ "" := fun e => h ((coerceToText_eq_empty bs).mp e)
    simp [h, h2]

/-- The record of an outcome held as bytes is the record of its text. -/
theorem jsonMarshalBytes_eq (o : EnrichedFIOBytes) : jsonMarshalBytes o = jsonMarshal o.text := by
  simp only [jsonMarshalBytes, jsonMarshal, omitEmptyBytes_eq, EnrichedFIOBytes.text]

/-- The decoder on values it does not store: an integer beyond the range of `int` leaves the
age alone and is reported, as are a value of the wrong kind for the field and a number
literal that is no integer; the largest `int` is stored. -/
theorem setField_rejections :
    (setField {} .age (.num 9223372036854775808)).1 = {}
    ∧ (setField {} .age (.num 9223372036854775808)).2 ≠ none
    ∧ setField {} .age (.num 9223372036854775807) = ({ Age := 9223372036854775807 }, none)
    ∧ setField {} .age (.numLit "1.5") = ({}, some ⟨"number 1.5", "int", .age⟩)
    ∧ setField {} .age (.str "30") = ({}, some ⟨"string", "int", .age⟩)
    ∧ setField {} .gender (.num 1) = ({}, some ⟨"number", "string", .gender⟩)
    ∧ setField {} .name (.bool true) = ({}, some ⟨"bool", "string", .name⟩)
    ∧ setField {} .error .arr = ({}, some ⟨"array", "string", .error⟩)
    ∧ setField {} .age .obj = ({}, some ⟨"object", "int", .age⟩)
    ∧ setField { Name := [0x41] } .name .null = ({ Name := [0x41] }, none) := by
  refine ⟨by decide, by decide, by decide, by decide, by decide, by decide, by decide,
    by decide, by decide, by decide⟩

theorem decodeMember_key (fold : String → String) (o : EnrichedFIOBytes) (f : Field)
    (v : JVal) : decodeMember fold (o, none) (f.key, v) = setField o f v := by
  simp [decodeMember, findField_key]

theorem foldl_omitEmptyBytes (fold : String → String) (o o2 : EnrichedFIOBytes) (f : Field)
    (bs : List Nat) (hset : setField o f (JVal.str (coerceToText bs)) = (o2, none))
    (hzero : bs = [] → o2 = o) :
    (omitEmptyBytes f.key bs).foldl (decodeMember fold) (o, none) = (o2, none) := by
  by_cases h : bs = []
  · simp [omitEmptyBytes, h, hzero h]
  · simp [omitEmptyBytes, h, decodeMember_key, hset]

theorem foldl_omitEmptyInt (fold : String → String) (o o2 : EnrichedFIOBytes) (f : Field)
    (v : Int) (hset : setField o f (JVal.num v) = (o2, none)) (hzero : v = 0 → o2 = o) :
    (omitEmptyInt f.key v).foldl (decodeMember fold) (o, none) = (o2, none) := by
  by_cases h : v = 0
  · simp [omitEmptyInt, h, hzero h]
  · simp [omitEmptyInt, h, decodeMember_key, hset]

theorem roundtrip_aux (fold : String → String) (n s p : List Nat) (a : Int)
    (g nat e em : List Nat) (hr : inInt64 a) :
    jsonUnmarshal fold (jsonMarshalBytes ⟨n, s, p, a, g, nat, e, em⟩)
      = (⟨coerce n, coerce s, coerce p, a, coerce g, coerce nat, coerce e, coerce em⟩,
          none) := by
  have h1 := foldl_omitEmptyBytes fold ⟨coerce n, coerce s, [], 0, [], [], [], []⟩
    ⟨coerce n, coerce s, coerce p, 0, [], [], [], []⟩ Field.patronymic p rfl
    (by rintro rfl; rfl)
  have h2 := foldl_omitEmptyInt fold ⟨coerce n, coerce s, coerce p, 0, [], [], [], []⟩
    ⟨coerce n, coerce s, coerce p, a, [], [], [], []⟩ Field.age a
    (by simp [setField, hr]) (by rintro rfl; rfl)
  have h3 := foldl_omitEmptyBytes fold ⟨coerce n, coerce s, coerce p, a, [], [], [], []⟩
    ⟨coerce n, coerce s, coerce p, a, coerce g, [], [], []⟩ Field.gender g rfl
    (by rintro rfl; rfl)
  have h4 := foldl_omitEmptyBytes fold ⟨coerce n, coerce s, coerce p, a, coerce g, [], [], []⟩
    ⟨coerce n, coerce s, coerce p, a, coerce g, coerce nat, [], []⟩ Field.nationality nat rfl
    (by rintro rfl; rfl)
  have h5 := foldl_omitEmptyBytes fold
    ⟨coerce n, coerce s, coerce p, a, coerce g, coerce nat, [], []⟩
    ⟨coerce n, coerce s, coerce p, a, coerce g, coerce nat, coerce e, []⟩ Field.error e rfl
    (by rintro rfl; rfl)
  have h6 := foldl_omitEmptyBytes fold
    ⟨coerce n, coerce s, coerce p, a, coerce g, coerce nat, coerce e, []⟩
    ⟨coerce n, coerce s, coerce p, a, coerce g, coerce nat, coerce e, coerce em⟩
    Field.errorMessage em rfl (by rintro rfl; rfl)
  have h0 : [("name", JVal.str (coerceToText n)), ("surname", JVal.str (coerceToText s))].foldl
      (decodeMember fold) (({} : EnrichedFIOBytes), none)
      = (⟨coerce n, coerce s, [], 0, [], [], [], []⟩, none) := by
    have e1 := decodeMember_key fold {} Field.name (JVal.str (coerceToText n))
    have e2 := decodeMember_key fold ⟨coerce n, [], [], 0, [], [], [], []⟩ Field.surname
      (JVal.str (coerceToText s))
    simp only [Field.key, coerce] at e1 e2
    simp only [List.foldl_cons, List.foldl_nil, e1, setField, e2, coerce]
  simp only [Field.key] at h1 h2 h3 h4 h5 h6
  simp only [jsonUnmarshal, jsonMarshalBytes, List.foldl_append, h0, h1, h2, h3, h4, h5, h6]

theorem coerced_valid (o : EnrichedFIOBytes) (hv : o.validUTF8 = true) : o.coerced = o := by
  obtain ⟨n, s, p, a, g, nat, e, em⟩ := o
  simp only [EnrichedFIOBytes.validUTF8, Bool.and_eq_true] at hv
  obtain ⟨⟨⟨⟨⟨⟨h1, h2⟩, h3⟩, h4⟩, h5⟩, h6⟩, h7⟩ := hv
  simp only [EnrichedFIOBytes.coerced, coerce_valid _ h1, coerce_valid _ h2, coerce_valid _ h3,
    coerce_valid _ h4, coerce_valid _ h5, coerce_valid _ h6, coerce_valid _ h7]

/-! ## Facts about the lookups and the orchestrator -/

theorem getAge_world (env : Env) (name : String) (w : World) :
    (getAge env name w).2 = { w with requests := w.requests ++ [lookupURL .age name] } := by
  unfold getAge httpGet lookupURL
  split
  · next h => simp only [Prod.mk.injEq] at h; rw [← h.2]
  · next h =>
    simp only [Prod.mk.injEq] at h
    split <;> rw [← h.2]

theorem getGender_world (env : Env) (name : String) (w : World) :
    (getGender env name w).2
      = { w with requests := w.requests ++ [lookupURL .gender name] } := by
  unfold getGender httpGet lookupURL
  split
  · next h => simp only [Prod.mk.injEq] at h; rw [← h.2]
  · next h =>
    simp only [Prod.mk.injEq] at h
    split <;> rw [← h.2]

theorem getNationality_world (env : Env) (name : String) (w : World) :
    (getNationality env name w).2
      = { w with requests := w.requests ++ [lookupURL .nationality name] } := by
  unfold getNationality httpGet lookupURL
  split
  · next h => simp only [Prod.mk.injEq] at h; rw [← h.2]
  · next h =>
    simp only [Prod.mk.injEq] at h
    split <;> rw [← h.2]

theorem enrichFIO_age_fails (env : Env) (fio : FIO) (w w1 : World) (v : Int) (e : GoError)
    (h : getAge env fio.Name w = ((v, some e), w1)) :
    enrichFIO env fio w
      = ((⟨fio, 0, "", "", "", ""⟩, some ("Failed to get age: " ++ e)), w1) := by
  simp only [ enrichFIO, h]

theorem enrichFIO_gender_fails (env : Env) (fio : FIO) (w w1 w2 : World) (a : Int)
    (v : String) (e : GoError) (h : getAge env fio.Name w = ((a, none), w1))
    (hg : getGender env fio.Name w1 = ((v, some e), w2)) :
    enrichFIO env fio w
      = ((⟨fio, a, "", "", "", ""⟩, some ("Failed to get gender: " ++ e)), w2) := by
  simp only [ enrichFIO, h, hg]

theorem enrichFIO_nationality_fails (env : Env) (fio : FIO) (w w1 w2 w3 : World) (a : Int)
    (g v : String) (e : GoError) (h : getAge env fio.Name w = ((a, none), w1))
    (hg : getGender env fio.Name w1 = ((g, none), w2))
    (hn : getNationality env fio.Name w2 = ((v, some e), w3)) :
    enrichFIO env fio w
      = ((⟨fio, a, g, "", "", ""⟩, some ("Failed to get nationality: " ++ e)), w3) := by
  simp only [ enrichFIO, h, hg, hn]

theorem enrichFIO_all_succeed (env : Env) (fio : FIO) (w w1 w2 w3 : World) (a : Int)
    (g n : String) (h : getAge env fio.Name w = ((a, none), w1))
    (hg : getGender env fio.Name w1 = ((g, none), w2))
    (hn : getNationality env fio.Name w2 = ((n, none), w3)) :
    enrichFIO env fio w = ((⟨fio, a, g, n, "", ""⟩, none), w3) := by
  simp only [ enrichFIO, h, hg, hn]

/-- The four ways the three lookups can go, with what `lookupResults` and `enrichFIO` give in
each of them. -/
theorem enrich_cases (env : Env) (fio : FIO) (w : World) :
    (∃ v e w1, getAge env fio.Name w = ((v, some e), w1)
        ∧ lookupResults env fio.Name w = .error (.age, e)
        ∧ enrichFIO env fio w
          = ((⟨fio, 0, "", "", "", ""⟩, some ("Failed to get age: " ++ e)), w1))
    ∨ (∃ a w1 v e w2, getAge env fio.Name w = ((a, none), w1)
        ∧ getGender env fio.Name w1 = ((v, some e), w2)
        ∧ lookupResults env fio.Name w = .error (.gender, e)
        ∧ enrichFIO env fio w
          = ((⟨fio, a, "", "", "", ""⟩, some ("Failed to get gender: " ++ e)), w2))
    ∨ (∃ a w1 g w2 v e w3, getAge env fio.Name w = ((a, none), w1)
        ∧ getGender env fio.Name w1 = ((g, none), w2)
        ∧ getNationality env fio.Name w2 = ((v, some e), w3)
        ∧ lookupResults env fio.Name w = .error (.nationality, e)
        ∧ enrichFIO env fio w
          = ((⟨fio, a, g, "", "", ""⟩, some ("Failed to get nationality: " ++ e)), w3))
    ∨ (∃ a w1 g w2 n w3, getAge env fio.Name w = ((a, none), w1)
        ∧ getGender env fio.Name w1 = ((g, none), w2)
        ∧ getNationality env fio.Name w2 = ((n, none), w3)
        ∧ lookupResults env fio.Name w = .ok (a, g, n)
        ∧ enrichFIO env fio w = ((⟨fio, a, g, n, "", ""⟩, none), w3)) := by
  rcases h : getAge env fio.Name w with ⟨⟨a, _ | e⟩, w1⟩
  · rcases hg : getGender env fio.Name w1 with ⟨⟨g, _ | e⟩, w2⟩
    · rcases hn : getNationality env fio.Name w2 with ⟨⟨n, _ | e⟩, w3⟩
      · refine Or.inr (Or.inr (Or.inr ⟨a, w1, g, w2, n, w3, rfl, hg, hn, ?_, ?_⟩))
        · simp only [lookupResults, h, hg, hn]
        · exact enrichFIO_all_succeed env fio w w1 w2 w3 a g n h hg hn
      · refine Or.inr (Or.inr (Or.inl ⟨a, w1, g, w2, n, e, w3, rfl, hg, hn, ?_, ?_⟩))
        · simp only [lookupResults, h, hg, hn]
        · exact enrichFIO_nationality_fails env fio w w1 w2 w3 a g n e h hg hn
    · refine Or.inr (Or.inl ⟨a, w1, g, e, w2, rfl, hg, ?_, ?_⟩)
      · simp only [lookupResults, h, hg]
      · exact enrichFIO_gender_fails env fio w w1 w2 a g e h hg
  · refine Or.inl ⟨a, e, w1, rfl, ?_, ?_⟩
    · simp only [lookupResults, h]
    · exact enrichFIO_age_fails env fio w w1 a e h

theorem label_age (e : GoError) :
    "Failed to get " ++ Attr.label .age ++ ": " ++ e = "Failed to get age: " ++ e := by
  have h : "Failed to get " ++ Attr.label .age ++ ": " = "Failed to get age: " := by decide
  rw [h]

theorem label_gender (e : GoError) :
    "Failed to get " ++ Attr.label .gender ++ ": " ++ e = "Failed to get gender: " ++ e := by
  have h : "Failed to get " ++ Attr.label .gender ++ ": " = "Failed to get gender: " := by
    decide
  rw [h]

theorem label_nationality (e : GoError) :
    "Failed to get " ++ Attr.label .nationality ++ ": " ++ e
      = "Failed to get nationality: " ++ e := by
  have h : "Failed to get " ++ Attr.label .nationality ++ ": "
      = "Failed to get nationality: " := by decide
  rw [h]

/-! ## Facts about the publisher and the loop body -/

theorem publish_handed (env : Env) (b : Wire) (w : World) :
    ( publishEnrichedFIO env b w).handed = w.handed ++ [b] := by
  unfold publishEnrichedFIO logFatalf
  split
  · rfl
  · split
    · rfl
    · split <;> rfl

theorem publish_requests (env : Env) (b : Wire) (w : World) :
    ( publishEnrichedFIO env b w).requests = w.requests := by
  unfold publishEnrichedFIO logFatalf
  split
  · rfl
  · split
    · rfl
    · split <;> rfl

theorem publish_ok (env : Env) (hd : NoDeliveryFailure env) (b : Wire) (w : World) :
    publishEnrichedFIO env b w = { w with handed := w.handed ++ [b] } := by
  unfold publishEnrichedFIO
  rw [(hd w.handed b).1, (hd w.handed b).2.1, (hd w.handed b).2.2]

theorem handleMessage_eq (env : Env) (value : String) (w : World) :
    handleMessage env value w
      = publishEnrichedFIO env (jsonMarshal (outcome env value w))
          (beforePublish env value w) := by
  unfold handleMessage outcome beforePublish
  rcases hu : env.jsonUnmarshalFIO value with ⟨fio, _ | d⟩
  · rcases he : enrichFIO env fio w with ⟨⟨o, _ | err⟩, w1⟩ <;> simp only [he]
  · simp only

theorem enrichFIO_world (env : Env) (fio : FIO) (w : World) :
    ( enrichFIO env fio w).2
      = { w with requests := (w.requests
            ++ (attempted (failedAttr (lookupResults env fio.Name w))).map
                (fun a => lookupURL a fio.Name)) } := by
  rcases enrich_cases env fio w with ⟨v, e, w1, h, hr, he⟩ | ⟨a, w1, v, e, w2, h, hg, hr, he⟩
    | ⟨a, w1, g, w2, v, e, w3, h, hg, hn, hr, he⟩ | ⟨a, w1, g, w2, n, w3, h, hg, hn, hr, he⟩
  · have e1 := getAge_world env fio.Name w
    rw [h] at e1
    simp only at e1
    rw [he, hr, e1]
    rfl
  · have e1 := getAge_world env fio.Name w
    have e2 := getGender_world env fio.Name w1
    rw [h] at e1
    rw [hg] at e2
    simp only at e1 e2
    rw [he, hr, e2, e1]
    simp [attempted, failedAttr]
  · have e1 := getAge_world env fio.Name w
    have e2 := getGender_world env fio.Name w1
    have e3 := getNationality_world env fio.Name w2
    rw [h] at e1
    rw [hg] at e2
    rw [hn] at e3
    simp only at e1 e2 e3
    rw [he, hr, e3, e2, e1]
    simp [attempted, failedAttr]
  · have e1 := getAge_world env fio.Name w
    have e2 := getGender_world env fio.Name w1
    have e3 := getNationality_world env fio.Name w2
    rw [h] at e1
    rw [hg] at e2
    rw [hn] at e3
    simp only at e1 e2 e3
    rw [he, hr, e3, e2, e1]
    simp [attempted, failedAttr]

theorem beforePublish_handed (env : Env) (value : String) (w : World) :
    (beforePublish env value w).handed = w.handed := by
  unfold beforePublish
  split
  · rfl
  · rw [enrichFIO_world]

theorem beforePublish_fatal (env : Env) (value : String) (w : World) :
    (beforePublish env value w).fatal = w.fatal := by
  unfold beforePublish
  split
  · rfl
  · rw [enrichFIO_world]

theorem handleMessage_handed (env : Env) (value : String) (w : World) :
    (handleMessage env value w).handed = w.handed ++ [jsonMarshal (outcome env value w)] := by
  rw [handleMessage_eq, publish_handed, beforePublish_handed]

theorem failed_message_ne (p e : String) (hp : p ≠ "") : p ++ e ≠ "" := by
  intro h
  have hl := congrArg String.length h
  rw [String.length_append] at hl
  have h0 : p.length ≠ 0 := by
    intro hz
    apply hp
    cases p with
    | mk d =>
      simp only [String.length, List.length_eq_zero] at hz
      rw [hz]
  have hz : ("" : String).length = 0 := rfl
  omega

theorem mem_omitEmptyStr (key v : String) (m : String × JVal) :
    m ∈ omitEmptyStr key v ↔ v ≠ "" ∧ m = (key, JVal.str v) := by
  unfold omitEmptyStr
  split <;> simp_all

theorem mem_omitEmptyInt (key : String) (v : Int) (m : String × JVal) :
    m ∈ omitEmptyInt key v ↔ v ≠ 0 ∧ m = (key, JVal.num v) := by
  unfold omitEmptyInt
  split <;> simp_all

theorem mem_jsonMarshal (o : EnrichedFIO) (m : String × JVal) :
    m ∈ jsonMarshal o ↔
      m = ("name", JVal.str o.Name) ∨ m = ("surname", JVal.str o.Surname)
      ∨ (o.Patronymic ≠ "" ∧ m = ("patronymic", JVal.str o.Patronymic))
      ∨ (o.Age ≠ 0 ∧ m = ("age", JVal.num o.Age))
      ∨ (o.Gender ≠ "" ∧ m = ("gender", JVal.str o.Gender))
      ∨ (o.Nationality ≠ "" ∧ m = ("nationality", JVal.str o.Nationality))
      ∨ (o.Error ≠ "" ∧ m = ("error", JVal.str o.Error))
      ∨ (o.ErrorMessage ≠ "" ∧ m = ("error_message", JVal.str o.ErrorMessage)) := by
  simp only [jsonMarshal, List.mem_append, mem_omitEmptyStr, mem_omitEmptyInt, List.mem_cons,
    List.mem_singleton, List.not_mem_nil, or_false, or_assoc]

theorem hasKey_iff (r : Wire) (k : String) : hasKey r k ↔ ∃ v, (k, v) ∈ r := by
  simp [hasKey]

theorem hasKey_patronymic (o : EnrichedFIO) :
    hasKey (jsonMarshal o) "patronymic" ↔ o.Patronymic ≠ "" := by
  simp [hasKey_iff, mem_jsonMarshal]

theorem hasKey_age (o : EnrichedFIO) : hasKey (jsonMarshal o) "age" ↔ o.Age ≠ 0 := by
  simp [hasKey_iff, mem_jsonMarshal]

theorem hasKey_gender (o : EnrichedFIO) : hasKey (jsonMarshal o) "gender" ↔ o.Gender ≠ "" := by
  simp [hasKey_iff, mem_jsonMarshal]

theorem hasKey_nationality (o : EnrichedFIO) :
    hasKey (jsonMarshal o) "nationality" ↔ o.Nationality ≠ "" := by
  simp [hasKey_iff, mem_jsonMarshal]

theorem hasKey_error (o : EnrichedFIO) : hasKey (jsonMarshal o) "error" ↔ o.Error ≠ "" := by
  simp [hasKey_iff, mem_jsonMarshal]

theorem hasKey_error_message (o : EnrichedFIO) :
    hasKey (jsonMarshal o) "error_message" ↔ o.ErrorMessage ≠ "" := by
  simp [hasKey_iff, mem_jsonMarshal]

/-- The three shapes of the value the loop body marshals. -/
theorem outcome_cases (env : Env) (value : String) (w : World) :
    (∃ fio d, env.jsonUnmarshalFIO value = (fio, some d)
        ∧ outcome env value w
          = ⟨fio, 0, "", "", "invalid_message", "Invalid message format"⟩)
    ∨ (∃ fio A e, env.jsonUnmarshalFIO value = (fio, none)
        ∧ lookupResults env fio.Name w = .error (A, e)
        ∧ outcome env value w
          = ⟨fio, 0, "", "", "enrichment_failed", "Failed to get " ++ A.label ++ ": " ++ e⟩)
    ∨ (∃ fio a g n, env.jsonUnmarshalFIO value = (fio, none)
        ∧ lookupResults env fio.Name w = .ok (a, g, n)
        ∧ outcome env value w = ⟨fio, a, g, n, "", ""⟩) := by
  rcases hu : env.jsonUnmarshalFIO value with ⟨fio, _ | d⟩
  · rcases enrich_cases env fio w with ⟨v, e, w1, h, hr, he⟩
      | ⟨a, w1, v, e, w2, h, hg, hr, he⟩
      | ⟨a, w1, g, w2, v, e, w3, h, hg, hn, hr, he⟩ | ⟨a, w1, g, w2, n, w3, h, hg, hn, hr, he⟩
    · refine Or.inr (Or.inl ⟨fio, Attr.age, e, rfl, hr, ?_⟩)
      simp only [outcome, hu, he, label_age]
    · refine Or.inr (Or.inl ⟨fio, Attr.gender, e, rfl, hr, ?_⟩)
      simp only [outcome, hu, he, label_gender]
    · refine Or.inr (Or.inl ⟨fio, Attr.nationality, e, rfl, hr, ?_⟩)
      simp only [outcome, hu, he, label_nationality]
    · refine Or.inr (Or.inr ⟨fio, a, g, n, rfl, hr, ?_⟩)
      simp only [outcome, hu, he]
  · refine Or.inl ⟨fio, d, rfl, ?_⟩
    simp only [outcome, hu]

theorem failure_text_ne (A : Attr) (e : GoError) :
    "Failed to get " ++ A.label ++ ": " ++ e ≠ "" := by
  cases A
  · rw [label_age]; exact failed_message_ne _ _ (by decide)
  · rw [label_gender]; exact failed_message_ne _ _ (by decide)
  · rw [label_nationality]; exact failed_message_ne _ _ (by decide)

/-- An outcome with an error carries no attribute. -/
theorem outcome_exclusive (env : Env) (value : String) (w : World) :
    ¬ ((outcome env value w).Error ≠ ""
        ∧ ((outcome env value w).Age ≠ 0 ∨ (outcome env value w).Gender ≠ ""
            ∨ (outcome env value w).Nationality ≠ "")) := by
  rcases outcome_cases env value w with ⟨fio, d, _, ho⟩ | ⟨fio, A, e, _, _, ho⟩
    | ⟨fio, a, g, n, _, _, ho⟩ <;> rw [ho] <;> simp

theorem iteration_failure_handed (env : Env) (err : GoError) (msg : String) (w : World) :
    (iteration env (.failure err msg) w).handed = w.handed := rfl

theorem iteration_message_handed (env : Env) (value : String) (w : World) :
    (iteration env (.message value) w).handed
      = w.handed ++ [jsonMarshal (outcome env value w)] :=
  handleMessage_handed env value w

theorem iteration_fatal (env : Env) (hd : NoDeliveryFailure env) (r : ReadResult) (w : World)
    (hw : w.fatal = none) : (iteration env r w).fatal = none := by
  cases r with
  | message value =>
    show (handleMessage env value w).fatal = none
    rw [handleMessage_eq, publish_ok env hd]
    show (beforePublish env value w).fatal = none
    rw [beforePublish_fatal, hw]
  | failure err msg => exact hw

/-! ## The orchestrator -/

/-- C3: for every identity and every behaviour of the lookups, the requests `enrichFIO` makes
are, in this order, those of the prefix of age, gender, nationality that ends at the first
failing lookup (all three when none fails), each for the identity's name: after a failed age
lookup neither gender nor nationality is requested, after a failed gender lookup nationality
is not. -/
theorem enrichFIO_lookup_calls (env : Env) (fio : FIO) (w : World) :
    ( enrichFIO env fio w).2.requests
      = w.requests ++ (attempted (failedAttr (lookupResults env fio.Name w))).map
          (fun a => lookupURL a fio.Name)
    ∧ (∀ v e w1, getAge env fio.Name w = ((v, some e), w1) →
        ( enrichFIO env fio w).2.requests
          = w.requests ++ ["https://api.agify.io/?name=" ++ fio.Name])
    ∧ (∀ a w1 v e w2, getAge env fio.Name w = ((a, none), w1) →
        getGender env fio.Name w1 = ((v, some e), w2) →
        ( enrichFIO env fio w).2.requests
          = w.requests ++ ["https://api.agify.io/?name=" ++ fio.Name,
              "https://api.genderize.io/?name=" ++ fio.Name])
    ∧ (∀ a w1 g w2, getAge env fio.Name w = ((a, none), w1) →
        getGender env fio.Name w1 = ((g, none), w2) →
        ( enrichFIO env fio w).2.requests
          = w.requests ++ ["https://api.agify.io/?name=" ++ fio.Name,
              "https://api.genderize.io/?name=" ++ fio.Name,
              "https://api.nationalize.io/?name=" ++ fio.Name]) := by
  rw [enrichFIO_world]
  refine ⟨rfl, ?_, ?_, ?_⟩
  · intro v e w1 h
    simp only [lookupResults, h]
    rfl
  · intro a w1 v e w2 h hg
    simp only [lookupResults, h, hg]
    rfl
  · intro a w1 g w2 h hg
    rcases hn : getNationality env fio.Name w2 with ⟨⟨n, _ | e⟩, w3⟩ <;>
      simp only [lookupResults, h, hg, hn] <;> rfl

/-- C4: when the age, gender and nationality lookups succeed with `a`, `g` and `n`,
`enrichFIO` returns no error, and the record published for the message is the marshalled
outcome with the identity unchanged, the three values, and empty error fields. -/
theorem full_success (env : Env) (value : String) (fio : FIO) (w w1 w2 w3 : World) (a : Int)
    (g n : String) (hu : env.jsonUnmarshalFIO value = (fio, none))
    (h : getAge env fio.Name w = ((a, none), w1))
    (hg : getGender env fio.Name w1 = ((g, none), w2))
    (hn : getNationality env fio.Name w2 = ((n, none), w3)) :
    enrichFIO env fio w = ((⟨fio, a, g, n, "", ""⟩, none), w3)
    ∧ (handleMessage env value w).handed = w.handed ++ [jsonMarshal ⟨fio, a, g, n, "", ""⟩] := by
  have he := enrichFIO_all_succeed env fio w w1 w2 w3 a g n h hg hn
  refine ⟨he, ?_⟩
  rw [handleMessage_handed]
  simp only [outcome, hu, he]

/-- C4, the first example: Anna Ivanova with lookups 30, female, RU. -/
theorem full_success_anna :
    demoEnv.jsonUnmarshalFIO annaPayload = (⟨"Anna", "Ivanova", ""⟩, none)
    ∧ enrichFIO demoEnv ⟨"Anna", "Ivanova", ""⟩ {}
        = ((⟨⟨"Anna", "Ivanova", ""⟩, 30, "female", "RU", "", ""⟩, none),
            { requests := ["https://api.agify.io/?name=Anna",
                "https://api.genderize.io/?name=Anna",
                "https://api.nationalize.io/?name=Anna"] })
    ∧ (handleMessage demoEnv annaPayload {}).handed
        = [] ++ [jsonMarshal ⟨⟨"Anna", "Ivanova", ""⟩, 30, "female", "RU", "", ""⟩]
    ∧ jsonMarshal ⟨⟨"Anna", "Ivanova", ""⟩, 30, "female", "RU", "", ""⟩
        = [("name", .str "Anna"), ("surname", .str "Ivanova"), ("age", .num 30),
            ("gender", .str "female"), ("nationality", .str "RU")] :=
  have h := full_success demoEnv annaPayload ⟨"Anna", "Ivanova", ""⟩ {}
    { requests := ["https://api.agify.io/?name=Anna"] }
    { requests := ["https://api.agify.io/?name=Anna", "https://api.genderize.io/?name=Anna"] }
    { requests := ["https://api.agify.io/?name=Anna", "https://api.genderize.io/?name=Anna",
        "https://api.nationalize.io/?name=Anna"] }
    30 "female" "RU" (by decide) (by decide) (by decide) (by decide)
  ⟨by decide, h.1, h.2, by decide⟩

/-- C5: when the payload decodes to an identity and the first lookup to fail is the one for
attribute `A`, with error `e`, the published record is the marshalled outcome with the identity
unchanged, error `enrichment_failed`, error message `Failed to get A: e`, and neither age nor
gender nor nationality: on the wire it has the identity fields and the two error fields only. -/
theorem enrichment_failure (env : Env) (value : String) (fio : FIO) (w : World) (A : Attr)
    (e : GoError) (hu : env.jsonUnmarshalFIO value = (fio, none))
    (hf : lookupResults env fio.Name w = .error (A, e)) :
    (handleMessage env value w).handed
      = w.handed ++ [jsonMarshal ⟨fio, 0, "", "", "enrichment_failed",
          "Failed to get " ++ A.label ++ ": " ++ e⟩]
    ∧ jsonMarshal ⟨fio, 0, "", "", "enrichment_failed", "Failed to get " ++ A.label ++ ": " ++ e⟩
      = [("name", .str fio.Name), ("surname", .str fio.Surname)]
          ++ omitEmptyStr "patronymic" fio.Patronymic
          ++ [("error", .str "enrichment_failed"),
              ("error_message", .str ("Failed to get " ++ A.label ++ ": " ++ e))] := by
  constructor
  · rw [handleMessage_handed]
    rcases enrich_cases env fio w with ⟨v, e', w1, h, hr, he⟩
      | ⟨a, w1, v, e', w2, h, hg, hr, he⟩
      | ⟨a, w1, g, w2, v, e', w3, h, hg, hn, hr, he⟩ | ⟨a, w1, g, w2, n, w3, h, hg, hn, hr, he⟩
    · rw [hr] at hf
      injection hf with hf
      injection hf with hA he'
      subst hA he'
      simp only [outcome, hu, he, label_age]
    · rw [hr] at hf
      injection hf with hf
      injection hf with hA he'
      subst hA he'
      simp only [outcome, hu, he, label_gender]
    · rw [hr] at hf
      injection hf with hf
      injection hf with hA he'
      subst hA he'
      simp only [outcome, hu, he, label_nationality]
    · rw [hr] at hf
      exact absurd hf (by simp)
  · have hne : "Failed to get " ++ A.label ++ ": " ++ e ≠ "" := by
      cases A
      · rw [label_age]; exact failed_message_ne _ _ (by decide)
      · rw [label_gender]; exact failed_message_ne _ _ (by decide)
      · rw [label_nationality]; exact failed_message_ne _ _ (by decide)
    simp [jsonMarshal, omitEmptyStr, omitEmptyInt, hne]

/-- C5, the third example: Bob Lee, the age lookup succeeds and the gender lookup fails. -/
theorem enrichment_failure_bob :
    demoEnv.jsonUnmarshalFIO bobPayload = (⟨"Bob", "Lee", ""⟩, none)
    ∧ getAge demoEnv "Bob" {} = ((30, none), { requests := ["https://api.agify.io/?name=Bob"] })
    ∧ lookupResults demoEnv "Bob" {} = .error (Attr.gender, refused)
    ∧ (handleMessage demoEnv bobPayload {}).handed
        = [[("name", .str "Bob"), ("surname", .str "Lee"), ("error", .str "enrichment_failed"),
            ("error_message", .str ("Failed to get gender: " ++ refused))]] :=
  have h := enrichment_failure demoEnv bobPayload ⟨"Bob", "Lee", ""⟩ {} Attr.gender refused
    (by decide) rfl
  ⟨by decide, by decide, rfl, h.1.trans (by decide)⟩

/-- C10, counterexample: for Bob the age lookup succeeds with 30 and the gender lookup
fails, and the value `enrichFIO` returns next to the error still has age 30. -/
theorem enrichFIO_keeps_age :
    getAge demoEnv "Bob" {} = ((30, none), { requests := ["https://api.agify.io/?name=Bob"] })
    ∧ lookupResults demoEnv "Bob" {} = .error (Attr.gender, refused)
    ∧ ( enrichFIO demoEnv ⟨"Bob", "Lee", ""⟩ {}).1
        = (⟨⟨"Bob", "Lee", ""⟩, 30, "", "", "", ""⟩, some ("Failed to get gender: " ++ refused))
    ∧ ( enrichFIO demoEnv ⟨"Bob", "Lee", ""⟩ {}).1.1.Age ≠ 0 :=
  ⟨by decide, rfl, by decide, by decide⟩

/-- C10, amended: when the first lookup to fail is the one for attribute `A`, with error `e`,
the value `enrichFIO` returns next to the error `Failed to get A: e` has the identity
unchanged, no error field, the values of the lookups that succeeded before the failure, and
the zero value for the failed attribute and the ones after it. -/
theorem enrichFIO_partial_value (env : Env) (fio : FIO) (w : World) (A : Attr) (e : GoError)
    (hf : lookupResults env fio.Name w = .error (A, e)) :
    ( enrichFIO env fio w).1
      = (⟨fio,
          (match A with
            | .age => 0
            | _ => (getAge env fio.Name w).1.1),
          (match A with
            | .nationality => (getGender env fio.Name (getAge env fio.Name w).2).1.1
            | _ => ""),
          "", "", ""⟩,
        some ("Failed to get " ++ A.label ++ ": " ++ e)) := by
  rcases enrich_cases env fio w with ⟨v, e', w1, h, hr, he⟩
    | ⟨a, w1, v, e', w2, h, hg, hr, he⟩
    | ⟨a, w1, g, w2, v, e', w3, h, hg, hn, hr, he⟩ | ⟨a, w1, g, w2, n, w3, h, hg, hn, hr, he⟩
  · rw [hr] at hf
    injection hf with hf
    injection hf with hA he'
    subst hA he'
    rw [he, label_age]
  · rw [hr] at hf
    injection hf with hf
    injection hf with hA he'
    subst hA he'
    rw [he, label_gender, h]
  · rw [hr] at hf
    injection hf with hf
    injection hf with hA he'
    subst hA he'
    rw [he, label_nationality, h, hg]
  · rw [hr] at hf
    exact absurd hf (by simp)

/-- C10, amended, at the example: Bob keeps the age 30 in the value returned by `enrichFIO`. -/
theorem enrichFIO_partial_value_bob :
    lookupResults demoEnv "Bob" {} = .error (Attr.gender, refused)
    ∧ ( enrichFIO demoEnv ⟨"Bob", "Lee", ""⟩ {}).1
        = (⟨⟨"Bob", "Lee", ""⟩, 30, "", "", "", ""⟩,
            some ("Failed to get " ++ Attr.label .gender ++ ": " ++ refused)) :=
  ⟨rfl, (enrichFIO_partial_value demoEnv ⟨"Bob", "Lee", ""⟩ {} Attr.gender refused rfl).trans
    (by decide)⟩

/-! ## The loop -/

/-- C1: for every sequence of read results and every behaviour of the decoder, the lookups
and the producer, the records the loop hands to `publishEnrichedFIO` are the marshalled forms
of outcomes none of which has a non-empty error together with a non-zero age, a non-empty
gender or a non-empty nationality. -/
theorem mutual_exclusivity (env : Env) (reads : List ReadResult) (w : World) :
    ∃ os : List EnrichedFIO,
      (consumeLoop env reads w).handed = w.handed ++ os.map jsonMarshal
      ∧ ∀ o ∈ os, ¬ (o.Error ≠ "" ∧ (o.Age ≠ 0 ∨ o.Gender ≠ "" ∨ o.Nationality ≠ "")) := by
  induction reads generalizing w with
  | nil => exact ⟨[], by simp [consumeLoop], by simp⟩
  | cons r rs ih =>
    rcases hfat : w.fatal with _ | m
    · obtain ⟨os, hos, hgood⟩ := ih (iteration env r w)
      cases r with
      | message value =>
        refine ⟨outcome env value w :: os, ?_, ?_⟩
        · simp only [consumeLoop, hfat, hos, iteration_message_handed, List.map_cons,
            List.append_assoc, List.singleton_append]
        · intro o ho
          rcases List.mem_cons.mp ho with rfl | ho
          · exact outcome_exclusive env value w
          · exact hgood o ho
      | failure err msg =>
        refine ⟨os, ?_, hgood⟩
        simp only [consumeLoop, hfat, hos, iteration_failure_handed]
    · exact ⟨[], by simp [consumeLoop, hfat], by simp⟩

/-- C7: with a producer that never fails and a running process, for every finite sequence of
read results the records handed to `publishEnrichedFIO` are exactly the expected ones, in
order: one per successfully read message, the marshalled outcome of that message, none for a
failed read, and the reads after a failed read are still processed. -/
theorem one_record_per_message (env : Env) (reads : List ReadResult) (w : World)
    (hd : NoDeliveryFailure env) (hw : w.fatal = none) :
    (consumeLoop env reads w).handed = w.handed ++ expectedRecords env reads w
    ∧ (consumeLoop env reads w).fatal = none
    ∧ ∃ ws : List World, ws.length = (messagesOf reads).length
        ∧ expectedRecords env reads w
          = List.zipWith (fun value wv => jsonMarshal (outcome env value wv))
              (messagesOf reads) ws := by
  induction reads generalizing w with
  | nil => exact ⟨by simp [consumeLoop, expectedRecords], hw, [], rfl, rfl⟩
  | cons r rs ih =>
    obtain ⟨h1, h2, ws, h3, h4⟩ := ih (iteration env r w) (iteration_fatal env hd r w hw)
    cases r with
    | message value =>
      refine ⟨?_, ?_, w :: ws, ?_, ?_⟩
      · simp only [consumeLoop, hw, h1, expectedRecords, iteration_message_handed,
          List.append_assoc, List.singleton_append]
      · simp only [consumeLoop, hw, h2]
      · simp only [messagesOf, List.length_cons, h3]
      · simp only [expectedRecords, messagesOf, List.zipWith_cons_cons, h4]
    | failure err msg =>
      refine ⟨?_, ?_, ws, ?_, ?_⟩
      · simp only [consumeLoop, hw, h1, expectedRecords, iteration_failure_handed]
      · simp only [consumeLoop, hw, h2]
      · simp only [messagesOf, h3]
      · simp only [expectedRecords, messagesOf, h4]

/-- C7, at a run: a failed read between two messages, then a rejected payload. -/
theorem one_record_per_message_demo :
    NoDeliveryFailure demoEnv
    ∧ (consumeLoop demoEnv
        [.message annaPayload, .failure "Local: Timed out" "<nil>", .message bobPayload,
          .message "not-json"] {}).handed
      = [[("name", .str "Anna"), ("surname", .str "Ivanova"), ("age", .num 30),
            ("gender", .str "female"), ("nationality", .str "RU")],
          [("name", .str "Bob"), ("surname", .str "Lee"), ("error", .str "enrichment_failed"),
            ("error_message", .str ("Failed to get gender: " ++ refused))],
          [("name", .str ""), ("surname", .str ""), ("error", .str "invalid_message"),
            ("error_message", .str "Invalid message format")]] :=
  have hd : NoDeliveryFailure demoEnv := fun _ _ => ⟨rfl, rfl, rfl⟩
  ⟨hd, (one_record_per_message demoEnv
      [.message annaPayload, .failure "Local: Timed out" "<nil>", .message bobPayload,
        .message "not-json"] {} hd rfl).1.trans (by decide)⟩

/-- C2, counterexample: the age service answers Zed with a null age, which decodes to 0
without error, and the other two lookups succeed; the record published for Zed has neither
an age nor an error field, so it is neither enriched nor failed. -/
theorem zero_age_is_neither_state :
    demoEnv.jsonUnmarshalFIO zedPayload = (⟨"Zed", "Roe", ""⟩, none)
    ∧ lookupResults demoEnv "Zed" {} = .ok (0, "male", "US")
    ∧ (handleMessage demoEnv zedPayload {}).handed
        = [[("name", .str "Zed"), ("surname", .str "Roe"), ("gender", .str "male"),
            ("nationality", .str "US")]]
    ∧ ¬ isEnriched [("name", .str "Zed"), ("surname", .str "Roe"), ("gender", .str "male"),
            ("nationality", .str "US")]
    ∧ ¬ isFailed [("name", .str "Zed"), ("surname", .str "Roe"), ("gender", .str "male"),
            ("nationality", .str "US")] :=
  ⟨by decide, rfl, by decide, by simp [isEnriched, hasKey], by simp [isFailed, hasKey]⟩

/-- C2, amended: for every payload and every behaviour of the decoder and the lookups, the
one record published for the message is either failed (both error fields present, no age,
gender or nationality) and not enriched, or it is not failed, the payload decoded, the three
lookups succeeded with `a`, `g`, `n`, the outcome carries exactly these values and no error,
and each attribute is on the wire exactly when its value is not the zero value; such a
record is enriched exactly when `a`, `g` and `n` are all different from the zero value. -/
theorem two_states (env : Env) (value : String) (w : World) :
    (handleMessage env value w).handed = w.handed ++ [jsonMarshal (outcome env value w)]
    ∧ ((isFailed (jsonMarshal (outcome env value w))
          ∧ ¬ isEnriched (jsonMarshal (outcome env value w)))
      ∨ (¬ isFailed (jsonMarshal (outcome env value w))
          ∧ ∃ fio a g n, env.jsonUnmarshalFIO value = (fio, none)
            ∧ lookupResults env fio.Name w = .ok (a, g, n)
            ∧ outcome env value w = ⟨fio, a, g, n, "", ""⟩
            ∧ ¬ hasKey (jsonMarshal (outcome env value w)) "error"
            ∧ ¬ hasKey (jsonMarshal (outcome env value w)) "error_message"
            ∧ (hasKey (jsonMarshal (outcome env value w)) "age" ↔ a ≠ 0)
            ∧ (hasKey (jsonMarshal (outcome env value w)) "gender" ↔ g ≠ "")
            ∧ (hasKey (jsonMarshal (outcome env value w)) "nationality" ↔ n ≠ "")
            ∧ (isEnriched (jsonMarshal (outcome env value w)) ↔ a ≠ 0 ∧ g ≠ "" ∧ n ≠ ""))) := by
  refine ⟨handleMessage_handed env value w, ?_⟩
  rcases outcome_cases env value w with ⟨fio, d, _, ho⟩ | ⟨fio, A, e, _, _, ho⟩
    | ⟨fio, a, g, n, hu, hr, ho⟩
  · left
    rw [ho]
    simp only [isFailed, isEnriched, hasKey_age, hasKey_gender, hasKey_nationality,
      hasKey_error, hasKey_error_message]
    simp
  · left
    rw [ho]
    simp only [isFailed, isEnriched, hasKey_age, hasKey_gender, hasKey_nationality,
      hasKey_error, hasKey_error_message]
    simp [failure_text_ne]
  · right
    rw [ho]
    refine ⟨?_, fio, a, g, n, hu, hr, rfl, ?_⟩
    · simp only [isFailed, hasKey_error]
      simp
    · simp only [isEnriched, hasKey_age, hasKey_gender, hasKey_nationality,
        hasKey_error, hasKey_error_message]
      simp

/-- C6, counterexample: the payload `not-json` is rejected with a decode error, and the
published error message is the fixed text, not the text of the decode error. -/
theorem invalid_message_text_is_fixed :
    demoEnv.jsonUnmarshalFIO "not-json" = ({}, some notJsonError)
    ∧ (handleMessage demoEnv "not-json" {}).handed
        = [jsonMarshal ⟨{}, 0, "", "", "invalid_message", "Invalid message format"⟩]
    ∧ (handleMessage demoEnv "not-json" {}).handed
        ≠ [jsonMarshal ⟨{}, 0, "", "", "invalid_message", notJsonError⟩] :=
  ⟨by decide, by decide, by decide⟩

/-- C6, amended: when decoding the payload fails, with whatever error, the loop publishes the
marshalled outcome with the fields the decoder left, error `invalid_message` and the fixed
error message `Invalid message format`, and no lookup is requested. -/
theorem invalid_message_outcome (env : Env) (value : String) (fio : FIO) (d : GoError)
    (w : World) (hu : env.jsonUnmarshalFIO value = (fio, some d)) :
    (handleMessage env value w).handed
      = w.handed ++ [jsonMarshal ⟨fio, 0, "", "", "invalid_message", "Invalid message format"⟩]
    ∧ (handleMessage env value w).requests = w.requests := by
  constructor
  · rw [handleMessage_handed]
    simp only [outcome, hu]
  · rw [handleMessage_eq, publish_requests]
    simp only [beforePublish, hu]

/-- C6, amended, at the second example: the payload `not-json`. -/
theorem invalid_message_outcome_not_json :
    demoEnv.jsonUnmarshalFIO "not-json" = ({}, some notJsonError)
    ∧ (handleMessage demoEnv "not-json" {}).handed
        = [] ++ [jsonMarshal ⟨{}, 0, "", "", "invalid_message", "Invalid message format"⟩]
    ∧ (handleMessage demoEnv "not-json" {}).requests = [] :=
  ⟨by decide, invalid_message_outcome demoEnv "not-json" {} notJsonError {} (by decide)⟩

/-! ## The wire form -/

/-- C8, counterexample: the outcome published for `not-json` has an empty name and an empty
surname, and both are on the wire: the keys of the record are name, surname, error and
error_message. -/
theorem empty_name_is_on_the_wire :
    outcome demoEnv "not-json" {}
      = ⟨⟨"", "", ""⟩, 0, "", "", "invalid_message", "Invalid message format"⟩
    ∧ jsonMarshal (outcome demoEnv "not-json" {})
        = [("name", .str ""), ("surname", .str ""), ("error", .str "invalid_message"),
            ("error_message", .str "Invalid message format")]
    ∧ ("name", JVal.str "") ∈ jsonMarshal (outcome demoEnv "not-json" {})
    ∧ (jsonMarshal (outcome demoEnv "not-json" {})).map Prod.fst ≠ ["error", "error_message"] :=
  ⟨by decide, by decide, by decide, by decide⟩

/-- C8, amended: for every outcome the wire record has the members name and surname with
the values of the fields, empty or not; every other member has a value that is neither the
empty string nor zero; and patronymic, age, gender, nationality, error and error_message are
on the wire exactly when the field is not its zero value. -/
theorem wire_omits_empty_optional_fields (o : EnrichedFIO) :
    ("name", JVal.str o.Name) ∈ jsonMarshal o
    ∧ ("surname", JVal.str o.Surname) ∈ jsonMarshal o
    ∧ (∀ k v, (k, v) ∈ jsonMarshal o →
        k = "name" ∨ k = "surname" ∨ (v ≠ JVal.str "" ∧ v ≠ JVal.num 0))
    ∧ (hasKey (jsonMarshal o) "patronymic" ↔ o.Patronymic ≠ "")
    ∧ (hasKey (jsonMarshal o) "age" ↔ o.Age ≠ 0)
    ∧ (hasKey (jsonMarshal o) "gender" ↔ o.Gender ≠ "")
    ∧ (hasKey (jsonMarshal o) "nationality" ↔ o.Nationality ≠ "")
    ∧ (hasKey (jsonMarshal o) "error" ↔ o.Error ≠ "")
    ∧ (hasKey (jsonMarshal o) "error_message" ↔ o.ErrorMessage ≠ "") := by
  refine ⟨?_, ?_, ?_, hasKey_patronymic o, hasKey_age o, hasKey_gender o,
    hasKey_nationality o, hasKey_error o, hasKey_error_message o⟩
  · rw [mem_jsonMarshal]; exact Or.inl rfl
  · rw [mem_jsonMarshal]; exact Or.inr (Or.inl rfl)
  · intro k v hm
    rw [mem_jsonMarshal] at hm
    rcases hm with h | h | ⟨hne, h⟩ | ⟨hne, h⟩ | ⟨hne, h⟩ | ⟨hne, h⟩ | ⟨hne, h⟩ | ⟨hne, h⟩
    · exact Or.inl (congrArg Prod.fst h)
    · exact Or.inr (Or.inl (congrArg Prod.fst h))
    all_goals
      right; right
      have hv := congrArg Prod.snd h
      simp only at hv
      subst hv
      simp [hne]

/-- C9, counterexample: an outcome whose name is the single byte 0xFF, which is not valid
UTF-8.  Its encoding writes the name as U+FFFD, and decoding stores the three bytes EF BF BD:
the value that comes back differs from the original in the populated field name. -/
theorem invalid_utf8_name_is_replaced :
    jsonMarshalBytes { Name := [0xFF] }
      = [("name", .str "\uFFFD"), ("surname", .str "")]
    ∧ jsonUnmarshal (fun key => key) (jsonMarshalBytes { Name := [0xFF] })
      = ({ Name := [0xEF, 0xBF, 0xBD] }, none)
    ∧ (jsonUnmarshal (fun key => key) (jsonMarshalBytes { Name := [0xFF] })).1.Name ≠ [0xFF]
    ∧ jsonUnmarshal (fun key => key) (jsonMarshalBytes { Name := [0xFF] })
      ≠ ({ Name := [0xFF] }, none) :=
  ⟨by decide, by decide, by decide, by decide⟩

/-- C9, amended: for every outcome (its age within the range of a Go `int`) and any case
folding of keys, decoding its JSON encoding into an `EnrichedFIO` succeeds and gives the
outcome with every string field coerced to valid UTF-8 and the age unchanged; when the string
fields hold valid UTF-8 this is the outcome itself, in every field, populated or omitted. -/
theorem decode_encode (fold : String → String) (o : EnrichedFIOBytes) (hr : inInt64 o.Age) :
    jsonUnmarshal fold (jsonMarshalBytes o) = (o.coerced, none)
    ∧ (o.validUTF8 = true → jsonUnmarshal fold (jsonMarshalBytes o) = (o, none)) := by
  have h : jsonUnmarshal fold (jsonMarshalBytes o) = (o.coerced, none) := by
    obtain ⟨n, s, p, a, g, nat, e, em⟩ := o
    exact roundtrip_aux fold n s p a g nat e em hr
  refine ⟨h, fun hv => ?_⟩
  rw [h, coerced_valid o hv]

/-- C9, amended, at an outcome with text outside ASCII (the name Zoë, the surname Šimić) and
omitted fields. -/
theorem decode_encode_zoe :
    inInt64 30
    ∧ EnrichedFIOBytes.validUTF8
        { Name := [0x5A, 0x6F, 0xC3, 0xAB], Surname := [0xC5, 0xA0, 0x69, 0x6D, 0x69, 0xC4, 0x87],
          Age := 30, Nationality := [0x48, 0x52] } = true
    ∧ jsonMarshalBytes
        { Name := [0x5A, 0x6F, 0xC3, 0xAB], Surname := [0xC5, 0xA0, 0x69, 0x6D, 0x69, 0xC4, 0x87],
          Age := 30, Nationality := [0x48, 0x52] }
      = [("name", .str "Zoë"), ("surname", .str "Šimić"), ("age", .num 30),
          ("nationality", .str "HR")]
    ∧ jsonUnmarshal (fun key => key)
        (jsonMarshalBytes
          { Name := [0x5A, 0x6F, 0xC3, 0xAB],
            Surname := [0xC5, 0xA0, 0x69, 0x6D, 0x69, 0xC4, 0x87],
            Age := 30, Nationality := [0x48, 0x52] })
      = ({ Name := [0x5A, 0x6F, 0xC3, 0xAB],
            Surname := [0xC5, 0xA0, 0x69, 0x6D, 0x69, 0xC4, 0x87],
            Age := 30, Nationality := [0x48, 0x52] }, none) :=
  ⟨by decide, by decide, by decide,
    (decode_encode (fun key => key)
      { Name := [0x5A, 0x6F, 0xC3, 0xAB], Surname := [0xC5, 0xA0, 0x69, 0x6D, 0x69, 0xC4, 0x87],
        Age := 30, Nationality := [0x48, 0x52] } (by decide)).2 (by decide)⟩

end FioPipeline
